import Mathlib

/-!
Verification development for the surround-to-eac3 transcoder.

Shallow embedding of `src/surround_to_eac3/processing.py` and the
aggregation loop of `src/surround_to_eac3/main.py`.

Python strings are modelled as lists of characters (`PyStr`); the
`os.path` functions the code calls (`basename`, `dirname`, `splitext`,
`join`, `normpath`, `abspath`, `relpath`) are translated from CPython's
`posixpath` algorithms.  Subprocess interaction (ffprobe / ffmpeg) is
modelled by environment records describing what the external tool did;
filesystem files are `Option Nat` (absent, or present with a size).
Human-readable log lines are modelled as structured `LogEntry` values
keeping the information content of the source's messages.
-/

/-- Python `str` as a list of characters. -/
abbrev PyStr := List Char

/-- Build a `PyStr` from a Lean string literal. -/
def pystr (s : String) : PyStr := s.data

/-- Split a list at the last occurrence of `c`: returns
`some (before, after)` with `p = before ++ c :: after` and `c ∉ after`,
or `none` when `c` does not occur.  This is the engine behind Python's
`str.rfind` used by `posixpath`. -/
def splitLast (c : Char) : PyStr → Option (PyStr × PyStr)
  | [] => none
  | x :: xs =>
    match splitLast c xs with
    | some (b, a) => some (x :: b, a)
    | none => if x = c then some ([], xs) else none

/-- Python `p.rfind(c)`: index of the last occurrence of `c`, `-1` if absent. -/
def rfind (c : Char) (p : PyStr) : Int :=
  match splitLast c p with
  | none => -1
  | some (b, _) => b.length

/-- `posixpath.basename`: everything after the last slash. -/
def basename (p : PyStr) : PyStr :=
  match splitLast '/' p with
  | none => p
  | some (_, a) => a

/-- Python `str.rstrip('/')`. -/
def rstripSlashes (p : PyStr) : PyStr :=
  (p.reverse.dropWhile (fun ch => ch = '/')).reverse

/-- `posixpath.dirname`: the prefix up to the last slash; the result keeps
a bare run of slashes, otherwise trailing slashes are stripped. -/
def dirname (p : PyStr) : PyStr :=
  match splitLast '/' p with
  | none => []
  | some (b, _) =>
    let head := b ++ ['/']
    if head.all (fun ch => ch = '/') then head else rstripSlashes head

/-- `posixpath.splitext` (via `genericpath._splitext` with `sep='/'`,
`extsep='.'`): split at the last dot after the last slash, provided at
least one non-dot character precedes it within the final component. -/
def splitext (p : PyStr) : PyStr × PyStr :=
  let sepIndex := rfind '/' p
  let dotIndex := rfind '.' p
  if sepIndex < dotIndex then
    let between := (p.take dotIndex.toNat).drop (sepIndex + 1).toNat
    if between.any (fun ch => ch ≠ '.') then
      (p.take dotIndex.toNat, p.drop dotIndex.toNat)
    else (p, [])
  else (p, [])

/-- Two-argument `posixpath.join`. -/
def pathJoin (a b : PyStr) : PyStr :=
  if b.take 1 = ['/'] then b
  else if a = [] ∨ a.getLast? = some '/' then a ++ b
  else a ++ '/' :: b

/-- Python `p.split(c)` on a character separator. -/
def splitOnChar (c : Char) : PyStr → List PyStr
  | [] => [[]]
  | x :: xs =>
    match splitOnChar c xs with
    | [] => [[]]
    | r :: rs => if x = c then [] :: r :: rs else (x :: r) :: rs

/-- One step of `posixpath.normpath`'s component loop. -/
def normStep (initialSlashes : Nat) (acc : List PyStr) (comp : PyStr) : List PyStr :=
  if comp = [] ∨ comp = ['.'] then acc
  else if comp ≠ ['.', '.'] ∨ (initialSlashes = 0 ∧ acc = []) ∨
      acc.getLast? = some ['.', '.'] then acc ++ [comp]
  else acc.dropLast

/-- `posixpath.normpath`. -/
def normpath (p : PyStr) : PyStr :=
  if p = [] then ['.']
  else
    let initialSlashes : Nat :=
      if p.take 1 = ['/'] then
        (if p.take 2 = ['/', '/'] ∧ p.take 3 ≠ ['/', '/', '/'] then 2 else 1)
      else 0
    let comps := splitOnChar '/' p
    let newComps := comps.foldl (normStep initialSlashes) []
    let res := List.replicate initialSlashes '/' ++ List.intercalate ['/'] newComps
    if res = [] then ['.'] else res

/-- `posixpath.abspath`: join onto the working directory when relative,
then normalize. -/
def abspath (cwd p : PyStr) : PyStr :=
  normpath (if p.take 1 = ['/'] then p else pathJoin cwd p)

/-- Length of the longest common prefix of two component lists
(`genericpath.commonprefix` applied to the two lists). -/
def commonPrefixLen : List PyStr → List PyStr → Nat
  | a :: as, b :: bs => if a = b then commonPrefixLen as bs + 1 else 0
  | _, _ => 0

/-- `posixpath.relpath path start` (both made absolute against `cwd`).
The final `join(*rel_list)` coincides with interleaving `'/'` because the
components are nonempty and slash-free. -/
def relpath (cwd path start : PyStr) : PyStr :=
  let startList := (splitOnChar '/' (abspath cwd start)).filter (fun x => x ≠ [])
  let pathList := (splitOnChar '/' (abspath cwd path)).filter (fun x => x ≠ [])
  let i := commonPrefixLen startList pathList
  let relList := List.replicate (startList.length - i) ['.', '.'] ++ pathList.drop i
  if relList = [] then ['.'] else List.intercalate ['/'] relList

/-- Python `str.lower` restricted to ASCII (the characters the tool deals
with in codec/language tags and paths). -/
def pyLower (s : String) : String := ⟨s.data.map Char.toLower⟩

/-- Python `str.strip` (whitespace at both ends). -/
def pyStrip (s : String) : String :=
  ⟨((s.data.dropWhile Char.isWhitespace).reverse.dropWhile Char.isWhitespace).reverse⟩

/-- Python `str.lower` on a path. -/
def pyLowerPath (p : PyStr) : PyStr := p.map Char.toLower

/-- Python `p.endswith(suffix)`. -/
def endsWith (suffix p : PyStr) : Bool := suffix.isSuffixOf p

/-! ## Stream data and the action planner
Translated from `process_single_file` (processing.py lines 201-245) and
`get_stream_info` (lines 35-85). -/

/-- The kind of per-stream audio operation (`op` field of the dicts the
planner appends to `audio_ops_for_ffmpeg`). -/
inductive AudioOpKind
  | copy
  | transcode
  | downmix
  deriving DecidableEq, Repr

/-- One entry of `audio_ops_for_ffmpeg`:
`{'index': ..., 'op': ..., 'lang': ...}`. -/
structure AudioOp where
  index : Nat
  op : AudioOpKind
  lang : String
  deriving DecidableEq, Repr

/-- One element of `audio_streams_details` as built by `get_stream_info`
for audio: `index`, `codec_name` (defaulted to `"unknown"`), `channels`
(possibly absent), `language` (defaulted to `"und"`, lowercased). -/
structure StreamDetail where
  index : Nat
  codec_name : String
  channels : Option Nat
  language : String
  deriving DecidableEq, Repr

/-- `[lang.strip().lower() for lang in args.languages.split(',') if lang.strip()]`
(processing.py line 201), with `split(',')` realized on the character list. -/
def parse_target_languages (languages : String) : List String :=
  (splitOnChar ',' languages.data).filterMap fun l =>
    let t := pyStrip ⟨l⟩
    if t = "" then none else some (pyLower t)

/-- The per-stream branch of the planning loop (lines 218-230): `none`
models "drop" (no entry appended). -/
def classify_stream (target_languages : List String) (s : StreamDetail) :
    Option AudioOpKind :=
  if s.language ∈ target_languages then
    let is_5_1 := s.channels = some 6
    let is_not_ac3_eac3 := s.codec_name ∉ ["ac3", "eac3"]
    if is_5_1 ∧ is_not_ac3_eac3 then some .transcode else some .copy
  else none

/-- The primary planning pass (lines 212-233): one optional op per stream,
in stream order. -/
def primary_ops (target_languages : List String) (streams : List StreamDetail) :
    List AudioOp :=
  streams.filterMap fun s =>
    (classify_stream target_languages s).map fun k =>
      { index := s.index, op := k, lang := s.language }

/-- The downmix pass (lines 238-244): for each primary op, look up the
first probed stream with the same index and add a downmix op when it has
6 channels. -/
def downmix_ops (streams : List StreamDetail) (ops : List AudioOp) : List AudioOp :=
  ops.filterMap fun op =>
    match streams.find? (fun s => s.index = op.index) with
    | some orig =>
      if orig.channels = some 6 then
        some { index := op.index, op := .downmix, lang := op.lang }
      else none
    | none => none

/-- The full plan for a file (lines 212-245): the primary pass, extended
by the downmix ops when `--downmix` is enabled. -/
def plan_ops (downmix_enabled : Bool) (target_languages : List String)
    (streams : List StreamDetail) : List AudioOp :=
  let primary := primary_ops target_languages streams
  if downmix_enabled then primary ++ downmix_ops streams primary else primary

/-- The planner's coarse classification of a plan (the control flow of
lines 247-262: empty list, no transcode/downmix, or work to do). -/
inductive Verdict
  | no_ops
  | no_transcode_needed
  | needs_processing
  deriving DecidableEq, Repr

/-- Verdict derivation: `if not audio_ops_for_ffmpeg` (line 247), else
`any(op['op'] in ('transcode', 'downmix') ...)` (line 255). -/
def verdict (ops : List AudioOp) : Verdict :=
  if ops.isEmpty then .no_ops
  else if ops.any (fun op => op.op = .transcode ∨ op.op = .downmix) then
    .needs_processing
  else .no_transcode_needed

/-! ## Log entries
Structured stand-ins for the human-readable messages the source appends
to its log lists; each constructor corresponds to one message site. -/

/-- Log messages, by source site. -/
inductive LogEntry
  /-- line 104: ffmpeg is not installed. -/
  | errNoFfmpeg
  /-- line 127: downmix note while building the command. -/
  | downmixNote (index : Nat) (lang : String)
  /-- line 139: the processing banner. -/
  | processingBanner
  /-- lines 27, 56, 142: logged command (`--log-commands`). -/
  | cmdLog (cmd : List String)
  /-- line 169: success, output saved. -/
  | successSaved
  /-- line 172: ffmpeg reported success but the temp file is missing or empty. -/
  | warnTempMissingOrEmpty
  /-- line 177: ffmpeg failed with a return code. -/
  | errFfmpegRC (rc : Int)
  /-- line 180: captured ffmpeg stderr. -/
  | ffmpegStderr (s : String)
  /-- line 41: ffprobe is missing (stream probe). -/
  | warnNoFfprobe
  /-- line 81: ffprobe JSON decode failure. -/
  | warnJsonDecode
  /-- line 84: other error while reading stream info. -/
  | errStreamInfo
  /-- line 199: per-file header. -/
  | checkedBanner
  /-- line 210: no audio streams found. -/
  | noAudioStreams
  /-- lines 223, 228, 230, 244: per-stream planning notes. -/
  | planNote (index : Nat) (kind : Option AudioOpKind)
  /-- line 248: skipping, no ops. -/
  | skipNoOps
  /-- line 257: skipping, no transcoding required. -/
  | skipNoTranscode
  /-- line 277: skipping, output exists. -/
  | skipExisting
  /-- line 285: identical input and output paths. -/
  | warnIdenticalPath
  /-- line 293: dry-run note. -/
  | dryRunNote
  /-- line 304: error creating the output directory. -/
  | errMakeDir
  /-- line 313: could not determine duration. -/
  | warnNoDuration
  /-- line 330: error removing the temp file during cleanup. -/
  | errTempCleanup
  deriving DecidableEq, Repr

/-! ## MediaProbe: `get_video_duration` and `get_stream_info` -/

/-- What the duration probe's environment did (processing.py lines 13-32):
`ffprobe` availability, and the parsed `float(stdout)` — `none` models a
`CalledProcessError` from the tool or a `ValueError` from parsing. -/
structure DurationEnv where
  ffprobe_available : Bool
  parsed : Option ℚ
  deriving DecidableEq

/-- The duration-probe command (lines 19-25); the concrete file path is
irrelevant to the claims and elided from the modelled argv. -/
def duration_command : List String :=
  ["ffprobe", "-v", "error", "-show_entries", "format=duration",
   "-of", "default=noprint_wrappers=1:nokey=1"]

/-- `get_video_duration` (lines 13-32). -/
def get_video_duration (env : DurationEnv) (log_commands : Bool) :
    ℚ × List LogEntry :=
  if ¬ env.ffprobe_available then (0, [])
  else
    let logs := if log_commands then [LogEntry.cmdLog duration_command] else []
    match env.parsed with
    | none => (0, logs)
    | some d => (d, logs)

/-- One raw stream dict of the parsed ffprobe JSON.  A missing `index`
key models the `KeyError` the source would hit at line 72 (caught by the
generic handler at line 83). -/
structure RawStream where
  index : Option Nat
  codec_name : Option String
  channels : Option Nat
  tags_language : Option String
  deriving DecidableEq

/-- What the stream probe's environment did (lines 40-68). -/
inductive StreamProbeRun
  /-- `shutil.which("ffprobe")` failed. -/
  | noTool
  /-- the subprocess returned a non-zero code. -/
  | exitNonzero
  /-- the subprocess wrote nothing (or only whitespace) to stdout. -/
  | emptyOutput
  /-- `json.loads` raised `JSONDecodeError`. -/
  | jsonError
  /-- an exception other than JSON decoding was raised mid-run. -/
  | otherError
  /-- JSON parsed; the `streams` entry held these dicts. -/
  | ok (streams : List RawStream)
  deriving DecidableEq

/-- The stream-probe command (lines 50-53), path elided as above. -/
def stream_info_command : List String :=
  ["ffprobe", "-v", "quiet", "-print_format", "json", "-show_streams",
   "-select_streams", "a"]

/-- The detail-building loop (lines 69-78) for audio streams; `none`
models the `KeyError` escape on a missing `index`. -/
def build_stream_details (raws : List RawStream) : Option (List StreamDetail) :=
  raws.mapM fun r =>
    r.index.map fun i =>
      { index := i,
        codec_name := r.codec_name.getD "unknown",
        channels := r.channels,
        language := pyLower (r.tags_language.getD "und") }

/-- `get_stream_info` for audio (lines 35-85). -/
def get_stream_info (env : StreamProbeRun) (log_commands : Bool) :
    List StreamDetail × List LogEntry :=
  match env with
  | .noTool => ([], [.warnNoFfprobe])
  | other =>
    let logs := if log_commands then [LogEntry.cmdLog stream_info_command] else []
    match other with
    | .noTool => ([], [.warnNoFfprobe])
    | .exitNonzero => ([], logs)
    | .emptyOutput => ([], logs)
    | .jsonError => ([], logs ++ [.warnJsonDecode])
    | .otherError => ([], logs ++ [.errStreamInfo])
    | .ok raws =>
      match build_stream_details raws with
      | some details => (details, logs)
      | none => ([], logs ++ [.errStreamInfo])

/-! ## TranscodeRunner: `process_file_with_ffmpeg` (lines 88-181) -/

/-- One line read from ffmpeg's progress pipe, abstracted to whether the
`out_time_us` parse of lines 151-153 succeeds and to its value. -/
inductive FfLine
  /-- a line carrying `out_time_us=<us>` that parses as an integer. -/
  | out_time (us : Int)
  /-- any other line, including ones whose parse raises (line 159). -/
  | other
  deriving DecidableEq

/-- One iteration of the progress loop (lines 150-160) acting on the
progress bar's current value `n` (`file_pbar.n`, in seconds):
`elapsed_seconds = time_us / 1_000_000`, `update_amount =
max(0, elapsed_seconds - n)`, updated only when strictly positive. -/
def progress_step (n : ℚ) (l : FfLine) : ℚ :=
  match l with
  | .out_time us =>
    let elapsed_seconds : ℚ := (us : ℚ) / 1000000
    let update_amount := max 0 (elapsed_seconds - n)
    if 0 < update_amount then n + update_amount else n
  | .other => n

/-- The successive values of the progress bar, starting at 0, one entry
per consumed line (the data forwarded to the progress display). -/
def progress_values (lines : List FfLine) : List ℚ :=
  List.scanl progress_step 0 lines

/-- The per-op arguments appended inside the command-building loop
(lines 118-128), for the op at output audio position `i`. -/
def audio_op_args (audio_bitrate : String) (i : Nat) (op : AudioOp) : List String :=
  ["-map", "0:" ++ toString op.index] ++
    match op.op with
    | .transcode =>
      ["-c:a:" ++ toString i, "eac3", "-b:a:" ++ toString i, audio_bitrate,
       "-ac:a:" ++ toString i, "6", "-metadata:s:a:" ++ toString i,
       "language=" ++ op.lang]
    | .copy => ["-c:a:" ++ toString i, "copy"]
    | .downmix =>
      ["-c:a:" ++ toString i, "aac", "-b:a:" ++ toString i, "256k",
       "-ac:a:" ++ toString i, "2", "-metadata:s:a:" ++ toString i,
       "language=" ++ op.lang, "-metadata:s:a:" ++ toString i, "title=Stereo",
       "-disposition:a:" ++ toString i, "0"]

/-- `map_operations` (lines 112-130): video/subtitle copies then the
audio ops in order, each at its output audio index. -/
def map_operations (audio_bitrate : String) (ops : List AudioOp) : List String :=
  ["-map", "0:v?", "-c:v", "copy", "-map", "0:s?", "-c:s", "copy"] ++
    (ops.enum.flatMap fun p => audio_op_args audio_bitrate p.1 p.2)

/-- Container selection from the output extension (lines 132-135). -/
def container_args (final_output_filepath : PyStr) : List String :=
  if endsWith (pystr ".mkv") (pyLowerPath final_output_filepath) then
    ["-f", "matroska"]
  else if endsWith (pystr ".mp4") (pyLowerPath final_output_filepath) then
    ["-f", "mp4"]
  else []

/-- A file on disk: absent, or present with its size in bytes. -/
abbrev FsFile := Option Nat

/-- The slice of the filesystem a transcode touches: the temp path
`<finalPath>.tmp` and the final output path. -/
structure FsState where
  temp : FsFile
  final : FsFile
  deriving DecidableEq

/-- What the external ffmpeg invocation did: availability of the binary,
exit code, the state it left the temp file in, captured stderr, and the
lines it wrote to its progress pipe. -/
structure FfmpegEnv where
  available : Bool
  returncode : Int
  temp_after_run : FsFile
  stderr_out : String
  progress_lines : List FfLine
  deriving DecidableEq

/-- Result of `process_file_with_ffmpeg`: the returned success flag and
logs, the filesystem afterwards, and the final progress-bar value. -/
structure RunnerResult where
  success : Bool
  fs : FsState
  logs : List LogEntry
  pbar_n : ℚ
  deriving DecidableEq

/-- The full ffmpeg command (lines 111-137), with the input and output
paths elided from the modelled argv. -/
def build_ffmpeg_cmd (final_output_filepath : PyStr) (audio_bitrate : String)
    (ops : List AudioOp) : List String :=
  ["ffmpeg", "-nostdin", "-i", "-map_metadata", "0"] ++
    map_operations audio_bitrate ops ++
    container_args final_output_filepath ++
    ["-y", "-v", "quiet", "-stats_period", "1", "-progress", "pipe:1"]

/-- `process_file_with_ffmpeg` (lines 88-181).  `fs` is the state of the
temp/final paths on entry.  The command-building downmix notes (lines
126-127), banner (line 139) and command log (line 142) are emitted in
source order; then the tool runs, the progress pipe is drained, and the
outcome branch of lines 166-181 decides the result. -/
def process_file_with_ffmpeg (env : FfmpegEnv) (fs : FsState)
    (final_output_filepath : PyStr) (audio_bitrate : String)
    (ops : List AudioOp) (duration : ℚ) (log_commands : Bool) : RunnerResult :=
  if ¬ env.available then
    { success := false, fs := fs, logs := [.errNoFfmpeg], pbar_n := 0 }
  else
    let downmixNotes : List LogEntry :=
      if log_commands then
        ops.filterMap fun op =>
          if op.op = .downmix then some (.downmixNote op.index op.lang) else none
      else []
    let cmd := build_ffmpeg_cmd final_output_filepath audio_bitrate ops
    let logs0 := downmixNotes ++ [LogEntry.processingBanner] ++
      (if log_commands then [LogEntry.cmdLog cmd] else [])
    let pbar : ℚ :=
      if 0 < duration then (progress_values env.progress_lines).getLast! else 0
    let fs1 : FsState := { fs with temp := env.temp_after_run }
    if env.returncode = 0 then
      match fs1.temp with
      | some n =>
        if 0 < n then
          { success := true, fs := { temp := none, final := some n },
            logs := logs0 ++ [.successSaved], pbar_n := pbar }
        else
          { success := false, fs := { fs1 with temp := none },
            logs := logs0 ++ [.warnTempMissingOrEmpty], pbar_n := pbar }
      | none =>
        { success := false, fs := fs1,
          logs := logs0 ++ [.warnTempMissingOrEmpty], pbar_n := pbar }
    else
      { success := false, fs := fs1,
        logs := logs0 ++ [.errFfmpegRC env.returncode] ++
          (if env.stderr_out = "" then [] else [.ffmpegStderr env.stderr_out]),
        pbar_n := pbar }

/-! ## FileJob: `process_single_file` (lines 184-335) -/

/-- The argparse namespace fields `process_single_file` reads. -/
structure Args where
  languages : String
  log_commands : Bool
  downmix : Bool
  output_directory_base : Option PyStr
  force_reprocess : Bool
  dry_run : Bool
  audio_bitrate : String

/-- How the call into `process_file_with_ffmpeg` behaves: it returns, or
it raises somewhere inside, leaving the temp path in some state. -/
inductive FfmpegStep
  /-- the call returns; `env` describes the external tool's behaviour. -/
  | runs (env : FfmpegEnv)
  /-- the call raises; `temp_at_raise` is the temp path's state then. -/
  | raises (temp_at_raise : FsFile)

/-- The environment of one `process_single_file` invocation: the file's
paths, what the probes and the tool do, and the filesystem answers the
job's checks receive. -/
structure JobEnv where
  filepath : PyStr
  input_path_abs : PyStr
  /-- `os.path.isdir(input_path_abs)` (lines 198, 268). -/
  input_is_dir : Bool
  /-- working directory, consumed by `os.path.abspath`. -/
  cwd : PyStr
  stream_probe : StreamProbeRun
  duration_probe : DurationEnv
  /-- the final output path's state when line 276 checks it. -/
  final_before : FsFile
  /-- the temp path's state on entry (a stale leftover, normally absent). -/
  temp_before : FsFile
  /-- `os.path.isdir(output_dir_for_this_file)` (line 300). -/
  output_dir_is_dir : Bool
  /-- whether `os.makedirs` succeeds (line 302). -/
  makedirs_ok : Bool
  /-- whether `os.remove` in the cleanup handler succeeds (line 328). -/
  remove_ok : Bool
  ffmpeg : FfmpegStep

/-- Outcome of one `process_single_file` invocation: the returned status
string, or `none` when an exception propagated out of the call; plus the
effects the run had. -/
structure JobResult where
  /-- `some status` for a normal return, `none` for a propagated exception. -/
  outcome : Option String
  /-- whether the external transcoding tool was invoked. -/
  tool_invoked : Bool
  /-- whether `os.makedirs` was called. -/
  made_dir : Bool
  temp_after : FsFile
  final_after : FsFile
  logs : List LogEntry

/-- Output-path resolution (lines 264-274). -/
def resolve_output_filepath (args : Args) (env : JobEnv) : PyStr :=
  let ne := splitext (basename env.filepath)
  let output_filename := ne.1 ++ pystr "_eac3" ++ ne.2
  let output_dir_for_this_file :=
    match args.output_directory_base with
    | none => dirname env.filepath
    | some base =>
      if env.input_is_dir then
        let relative_dir := relpath env.cwd (dirname env.filepath) env.input_path_abs
        if relative_dir ≠ ['.'] then pathJoin base relative_dir else base
      else base
  pathJoin output_dir_for_this_file output_filename

/-- The directory part of the resolved output path (line 266-272), needed
for the `os.makedirs` check. -/
def resolve_output_dir (args : Args) (env : JobEnv) : PyStr :=
  match args.output_directory_base with
  | none => dirname env.filepath
  | some base =>
    if env.input_is_dir then
      let relative_dir := relpath env.cwd (dirname env.filepath) env.input_path_abs
      if relative_dir ≠ ['.'] then pathJoin base relative_dir else base
    else base

/-- The `try`/`finally` tail of the job (lines 315-335), entered with the
accumulated logs: run ffmpeg (which may raise), then always attempt the
temp-file cleanup before returning or re-raising. -/
def job_execute (args : Args) (env : JobEnv) (final_output_filepath : PyStr)
    (duration : ℚ) (ops : List AudioOp) (logs : List LogEntry) : JobResult :=
  match env.ffmpeg with
  | .runs fenv =>
    let r := process_file_with_ffmpeg fenv
      { temp := env.temp_before, final := env.final_before }
      final_output_filepath args.audio_bitrate ops duration args.log_commands
    let cleaned : FsFile × List LogEntry :=
      match r.fs.temp with
      | some n => if env.remove_ok then (none, []) else (some n, [.errTempCleanup])
      | none => (none, [])
    { outcome := some (if r.success then "processed" else "failed"),
      tool_invoked := fenv.available,
      made_dir := false,
      temp_after := cleaned.1,
      final_after := r.fs.final,
      logs := logs ++ r.logs ++ cleaned.2 }
  | .raises temp_at_raise =>
    let cleaned : FsFile × List LogEntry :=
      match temp_at_raise with
      | some n => if env.remove_ok then (none, []) else (some n, [.errTempCleanup])
      | none => (none, [])
    { outcome := none,
      tool_invoked := true,
      made_dir := false,
      temp_after := cleaned.1,
      final_after := env.final_before,
      logs := logs ++ cleaned.2 }

/-- `process_single_file` (lines 184-335): probe, plan, resolve the
output path, apply the skip ladder, then execute under the cleanup
handler. -/
def process_single_file (args : Args) (env : JobEnv) : JobResult :=
  let noEffect : Option String → List LogEntry → JobResult := fun st logs =>
    { outcome := st, tool_invoked := false, made_dir := false,
      temp_after := env.temp_before, final_after := env.final_before,
      logs := logs }
  let target_languages := parse_target_languages args.languages
  let probed := get_stream_info env.stream_probe args.log_commands
  let audio_streams_details := probed.1
  let logs1 := [LogEntry.checkedBanner] ++ probed.2 ++
    (if audio_streams_details.isEmpty then [LogEntry.noAudioStreams] else
      audio_streams_details.map fun s =>
        .planNote s.index (classify_stream target_languages s)) ++
    (if args.downmix then
      (downmix_ops audio_streams_details
        (primary_ops target_languages audio_streams_details)).map fun op =>
          .planNote op.index (some .downmix)
     else [])
  let audio_ops_for_ffmpeg :=
    plan_ops args.downmix target_languages audio_streams_details
  if audio_ops_for_ffmpeg.isEmpty then
    noEffect (some "skipped_no_ops") (logs1 ++ [.skipNoOps])
  else if ¬ (audio_ops_for_ffmpeg.any fun op =>
      op.op = .transcode ∨ op.op = .downmix) then
    noEffect (some "skipped_no_transcode") (logs1 ++ [.skipNoTranscode])
  else
    let final_output_filepath := resolve_output_filepath args env
    if env.final_before.isSome ∧ ¬ args.force_reprocess then
      noEffect (some "skipped_existing") (logs1 ++ [.skipExisting])
    else if abspath env.cwd env.filepath =
        abspath env.cwd final_output_filepath then
      noEffect (some "skipped_identical_path") (logs1 ++ [.warnIdenticalPath])
    else if args.dry_run then
      noEffect (some "processed") (logs1 ++ [.dryRunNote])
    else if ¬ env.output_dir_is_dir ∧ ¬ env.makedirs_ok then
      { outcome := some "failed", tool_invoked := false,
        made_dir := true, temp_after := env.temp_before,
        final_after := env.final_before, logs := logs1 ++ [.errMakeDir] }
    else
      let durres := get_video_duration env.duration_probe args.log_commands
      let logs2 := logs1 ++ durres.2 ++
        (if durres.1 = 0 then [LogEntry.warnNoDuration] else [])
      let r := job_execute args env final_output_filepath durres.1
        audio_ops_for_ffmpeg logs2
      { r with made_dir := ¬ env.output_dir_is_dir }

/-! ## JobScheduler aggregation (main.py lines 182-225) -/

/-- The keys of the `stats` dictionary (main.py lines 182-185). -/
def STAT_KEYS : List String :=
  ["processed", "skipped_no_ops", "skipped_no_transcode",
   "skipped_identical_path", "skipped_existing", "failed"]

/-- The `stats` counters. -/
structure Stats where
  processed : Nat
  skipped_no_ops : Nat
  skipped_no_transcode : Nat
  skipped_identical_path : Nat
  skipped_existing : Nat
  failed : Nat
  deriving DecidableEq, Repr

/-- All counters zero (main.py lines 182-185). -/
def initialStats : Stats :=
  { processed := 0, skipped_no_ops := 0, skipped_no_transcode := 0,
    skipped_identical_path := 0, skipped_existing := 0, failed := 0 }

/-- Sum of all counters (what the summary reports across its lines). -/
def Stats.total (st : Stats) : Nat :=
  st.processed + st.skipped_no_ops + st.skipped_no_transcode +
    st.skipped_identical_path + st.skipped_existing + st.failed

/-- `stats[status] += 1` for a known key. -/
def Stats.bump (st : Stats) (s : String) : Stats :=
  if s = "processed" then { st with processed := st.processed + 1 }
  else if s = "skipped_no_ops" then
    { st with skipped_no_ops := st.skipped_no_ops + 1 }
  else if s = "skipped_no_transcode" then
    { st with skipped_no_transcode := st.skipped_no_transcode + 1 }
  else if s = "skipped_identical_path" then
    { st with skipped_identical_path := st.skipped_identical_path + 1 }
  else if s = "skipped_existing" then
    { st with skipped_existing := st.skipped_existing + 1 }
  else { st with failed := st.failed + 1 }

/-- What `future.result()` yields for one completed task: the returned
status string, or an exception. -/
inductive TaskResult
  /-- the task returned this status string. -/
  | completed (status : String)
  /-- the task raised; `future.result()` re-raised it. -/
  | raised
  deriving DecidableEq

/-- One iteration of the aggregation loop (main.py lines 210-225):
a known status bumps its counter, an unknown status bumps `failed`,
an exception bumps `failed`. -/
def updateStats (st : Stats) (r : TaskResult) : Stats :=
  match r with
  | .completed status =>
    if status ∈ STAT_KEYS then st.bump status else st.bump "failed"
  | .raised => st.bump "failed"

/-- The aggregate summary of a run: the loop folded over the one result
per discovered file. -/
def runSummary (results : List TaskResult) : Stats :=
  results.foldl updateStats initialStats

/-! ## Claims about the planner -/

/-- C3: every probed stream is classified into exactly one primary
category: a non-target-language stream yields no action regardless of
codec or channels; a target-language stream with exactly 6 channels and
a codec outside ac3/eac3 yields a transcode (E-AC3 at the configured
bitrate, forced 6 channels, tagged with the stream's language); every
other target-language stream yields a copy. -/
theorem C3_stream_classification (tl : List String) (s : StreamDetail)
    (b : String) (i : Nat) :
    (s.language ∉ tl → classify_stream tl s = none) ∧
    (s.language ∈ tl → s.channels = some 6 → s.codec_name ∉ ["ac3", "eac3"] →
      classify_stream tl s = some .transcode) ∧
    (s.language ∈ tl → ¬ (s.channels = some 6 ∧ s.codec_name ∉ ["ac3", "eac3"]) →
      classify_stream tl s = some .copy) ∧
    (audio_op_args b i { index := s.index, op := .transcode, lang := s.language } =
      ["-map", "0:" ++ toString s.index, "-c:a:" ++ toString i, "eac3",
       "-b:a:" ++ toString i, b, "-ac:a:" ++ toString i, "6",
       "-metadata:s:a:" ++ toString i, "language=" ++ s.language]) := by
  refine ⟨?_, ?_, ?_, rfl⟩
  · intro h
    simp [classify_stream, h]
  · intro h h6 hc
    simp [classify_stream, h, h6, hc]
  · intro h hn
    simp only [classify_stream, if_pos h]
    rw [if_neg hn]

/-- C3 witness: a 6-channel aac eng stream against target set
containing eng is transcoded. -/
theorem C3_stream_classification_witness :
    classify_stream ["eng"]
      { index := 1, codec_name := "aac", channels := some 6, language := "eng" } =
      some .transcode :=
  (C3_stream_classification ["eng"]
      { index := 1, codec_name := "aac", channels := some 6, language := "eng" }
      "1536k" 0).2.1 (by decide) rfl (by decide)

/-- C4: the verdict is `no_ops` iff the action list is empty;
`no_transcode_needed` iff it is non-empty with no transcode/downmix
action; `needs_processing` otherwise. -/
theorem C4_verdict_characterization (ops : List AudioOp) :
    (verdict ops = .no_ops ↔ ops = []) ∧
    (verdict ops = .no_transcode_needed ↔
      ops ≠ [] ∧ ∀ op ∈ ops, op.op ≠ .transcode ∧ op.op ≠ .downmix) ∧
    (verdict ops = .needs_processing ↔
      ops ≠ [] ∧ ∃ op ∈ ops, op.op = .transcode ∨ op.op = .downmix) := by
  have hany : (ops.any fun op => op.op = .transcode ∨ op.op = .downmix) = true ↔
      ∃ op ∈ ops, op.op = .transcode ∨ op.op = .downmix := by
    simp [List.any_eq_true]
  by_cases he : ops = []
  · subst he
    exact ⟨by simp [verdict], by simp [verdict], by simp [verdict]⟩
  · have hne : ops.isEmpty = false := by
      cases ops with
      | nil => exact absurd rfl he
      | cons a t => rfl
    by_cases ha : (ops.any fun op => op.op = .transcode ∨ op.op = .downmix) = true
    · have hv : verdict ops = .needs_processing := by
        unfold verdict
        rw [hne, if_neg Bool.false_ne_true, if_pos ha]
      refine ⟨?_, ?_, ?_⟩
      · rw [hv]; simp [he]
      · rw [hv]
        constructor
        · intro h; cases h
        · rintro ⟨-, hall⟩
          rcases hany.mp ha with ⟨op, hop, hk⟩
          rcases hall op hop with ⟨h1, h2⟩
          rcases hk with h | h
          · exact absurd h h1
          · exact absurd h h2
      · rw [hv]
        simp only [true_iff]
        exact ⟨he, hany.mp ha⟩
    · have hv : verdict ops = .no_transcode_needed := by
        unfold verdict
        rw [hne, if_neg Bool.false_ne_true, if_neg ha]
      have hall : ∀ op ∈ ops, op.op ≠ .transcode ∧ op.op ≠ .downmix := by
        intro op hop
        constructor <;> intro h <;> exact ha (hany.mpr ⟨op, hop, by simp [h]⟩)
      refine ⟨?_, ?_, ?_⟩
      · rw [hv]; simp [he]
      · rw [hv]
        simp only [true_iff]
        exact ⟨he, hall⟩
      · rw [hv]
        constructor
        · intro h; cases h
        · rintro ⟨-, op, hop, hk⟩
          rcases hall op hop with ⟨h1, h2⟩
          rcases hk with h | h
          · exact absurd h h1
          · exact absurd h h2

/-- C4 witness: on the empty plan the verdict is `no_ops`. -/
theorem C4_verdict_witness : verdict [] = .no_ops :=
  (C4_verdict_characterization []).1.mpr rfl

/-- The downmix pass is exactly: keep the primaries whose looked-up
source stream has 6 channels, in their original order, and turn each
into a downmix op with the same index and language. -/
theorem downmix_ops_eq (streams : List StreamDetail) (ops : List AudioOp) :
    downmix_ops streams ops =
      (ops.filter fun op =>
        ((streams.find? fun s => s.index = op.index).map StreamDetail.channels) =
          some (some 6)).map
        fun op => { index := op.index, op := .downmix, lang := op.lang } := by
  induction ops with
  | nil => rfl
  | cons op rest ih =>
    simp only [downmix_ops] at ih ⊢
    rw [List.filterMap_cons, List.filter_cons]
    cases hf : (streams.find? fun s => s.index = op.index) with
    | none => simpa [hf] using ih
    | some orig =>
      by_cases h6 : orig.channels = some 6
      · simpa [hf, h6] using ih
      · simpa [hf, h6] using ih

/-- C5 counterexample: with two 6-channel aac eng streams (indices 0, 1)
and downmix enabled, the plan is
[transcode 0, transcode 1, downmix 0, downmix 1]: the downmix entries
are appended after the whole primary list, so the combined action list
is not ordered by ascending original stream index (the claimed ordering
fails even though the count part of the claim holds here). -/
theorem C5_counterexample :
    ¬ ((plan_ops true ["eng"]
          [{ index := 0, codec_name := "aac", channels := some 6, language := "eng" },
           { index := 1, codec_name := "aac", channels := some 6, language := "eng" }]).length =
        (primary_ops ["eng"]
          [{ index := 0, codec_name := "aac", channels := some 6, language := "eng" },
           { index := 1, codec_name := "aac", channels := some 6, language := "eng" }]).length + 2 ∧
       List.Sorted (fun a b => a ≤ b)
         ((plan_ops true ["eng"]
            [{ index := 0, codec_name := "aac", channels := some 6, language := "eng" },
             { index := 1, codec_name := "aac", channels := some 6, language := "eng" }]).map
            AudioOp.index)) := by decide

/-- C5 amended: with downmix enabled the planner appends, after the
entire primary list, exactly one downmix action per primary action whose
looked-up source stream has channel count 6 (zero for every other
primary action), preserving the primaries' relative order; with downmix
disabled the plan is the primary list alone. -/
theorem C5_downmix_additive (tl : List String) (streams : List StreamDetail) :
    plan_ops true tl streams =
      primary_ops tl streams ++ downmix_ops streams (primary_ops tl streams) ∧
    downmix_ops streams (primary_ops tl streams) =
      ((primary_ops tl streams).filter fun op =>
        ((streams.find? fun s => s.index = op.index).map StreamDetail.channels) =
          some (some 6)).map
        (fun op => { index := op.index, op := .downmix, lang := op.lang }) ∧
    (downmix_ops streams (primary_ops tl streams)).length =
      ((primary_ops tl streams).filter fun op =>
        ((streams.find? fun s => s.index = op.index).map StreamDetail.channels) =
          some (some 6)).length ∧
    plan_ops false tl streams = primary_ops tl streams := by
  refine ⟨rfl, downmix_ops_eq streams (primary_ops tl streams), ?_, rfl⟩
  rw [downmix_ops_eq streams (primary_ops tl streams)]
  simp

/-- Every bump of a status counter raises the total by exactly one. -/
theorem Stats.total_bump (st : Stats) (s : String) :
    (st.bump s).total = st.total + 1 := by
  unfold Stats.bump Stats.total
  repeat' split
  all_goals simp
  all_goals omega

/-- Every iteration of the aggregation loop raises the total by one. -/
theorem total_updateStats (st : Stats) (r : TaskResult) :
    (updateStats st r).total = st.total + 1 := by
  cases r with
  | completed status =>
    have hm : updateStats st (.completed status) =
        if status ∈ STAT_KEYS then st.bump status else st.bump "failed" := rfl
    rw [hm]
    split
    · exact Stats.total_bump st status
    · exact Stats.total_bump st "failed"
  | raised => exact Stats.total_bump st "failed"

/-- Folding the loop from any starting counters adds the number of
results to the total. -/
theorem total_foldl_updateStats (results : List TaskResult) (st : Stats) :
    (results.foldl updateStats st).total = st.total + results.length := by
  induction results generalizing st with
  | nil => simp
  | cons r rest ih =>
    rw [List.foldl_cons, ih (updateStats st r), total_updateStats]
    simp
    omega

/-- C6: each discovered input file contributes exactly one outcome to
the aggregate summary — the loop consumes exactly one result per file,
an unknown status or a task exception bumps `failed` — so the summary's
per-outcome counts sum exactly to the number of discovered files. -/
theorem C6_summary_counts (results : List TaskResult) :
    (runSummary results).total = results.length ∧
    (∀ st : Stats, updateStats st .raised = { st with failed := st.failed + 1 }) ∧
    (∀ (st : Stats) (s : String), s ∉ STAT_KEYS →
      updateStats st (.completed s) = { st with failed := st.failed + 1 }) := by
  refine ⟨?_, ?_, ?_⟩
  · rw [runSummary, total_foldl_updateStats]
    simp [initialStats, Stats.total]
  · intro st
    rfl
  · intro st s hs
    have hm : updateStats st (.completed s) =
        if s ∈ STAT_KEYS then st.bump s else st.bump "failed" := rfl
    rw [hm, if_neg hs]
    rfl

/-- C6 witness: an unknown status string is counted as a failure, and a
single-result run totals one. -/
theorem C6_summary_counts_witness :
    (runSummary [.completed "processed"]).total = 1 ∧
    updateStats initialStats (.completed "bogus") =
      { initialStats with failed := initialStats.failed + 1 } :=
  ⟨(C6_summary_counts [.completed "processed"]).1,
   (C6_summary_counts []).2.2 initialStats "bogus" (by decide)⟩

/-! ## Claims about progress telemetry -/

/-- One progress update never moves the bar backwards. -/
theorem progress_step_ge (n : ℚ) (l : FfLine) : n ≤ progress_step n l := by
  cases l with
  | other => exact le_refl n
  | out_time us =>
    simp only [progress_step]
    split
    · rename_i h
      linarith [le_max_left (0 : ℚ) ((us : ℚ) / 1000000 - n)]
    · exact le_refl n

/-- Every value in the forwarded sequence dominates the starting value. -/
theorem progress_scanl_ge (lines : List FfLine) (n x : ℚ)
    (hx : x ∈ List.scanl progress_step n lines) : n ≤ x := by
  induction lines generalizing n with
  | nil =>
    rw [List.scanl] at hx
    simp at hx
    exact le_of_eq hx.symm
  | cons l ls ih =>
    rw [List.scanl, List.mem_cons] at hx
    rcases hx with h | h
    · exact le_of_eq h.symm
    · exact le_trans (progress_step_ge n l) (ih (progress_step n l) h)

/-- The forwarded sequence is sorted from any starting value. -/
theorem progress_scanl_sorted (lines : List FfLine) (n : ℚ) :
    List.Sorted (fun a b => a ≤ b) (List.scanl progress_step n lines) := by
  induction lines generalizing n with
  | nil => simp
  | cons l ls ih =>
    rw [List.scanl, List.sorted_cons]
    refine ⟨fun b hb => le_trans (progress_step_ge n l) ?_, ih (progress_step n l)⟩
    exact progress_scanl_ge ls (progress_step n l) b hb

/-- C8: the progress values forwarded from the tool's elapsed-time
telemetry form a monotonic non-decreasing sequence: every forwarded
value is ≥ 0 (clamped), each step never decreases the bar, and a parsed
update whose elapsed seconds do not exceed the current value is ignored
outright. -/
theorem C8_progress_monotone (lines : List FfLine) (n : ℚ) (us : Int) :
    List.Sorted (fun a b => a ≤ b) (progress_values lines) ∧
    (∀ x ∈ progress_values lines, 0 ≤ x) ∧
    n ≤ progress_step n (.out_time us) ∧
    ((us : ℚ) / 1000000 ≤ n → progress_step n (.out_time us) = n) := by
  refine ⟨progress_scanl_sorted lines 0,
    fun x hx => progress_scanl_ge lines 0 x hx,
    progress_step_ge n (.out_time us), ?_⟩
  intro hle
  simp only [progress_step]
  rw [if_neg]
  simp only [not_lt]
  exact max_le (le_refl 0) (by linarith)

/-- C8 witness: a zero-microsecond update against a bar at zero is
ignored and every forwarded value of the empty telemetry is ≥ 0. -/
theorem C8_progress_monotone_witness :
    progress_step 0 (.out_time 0) = 0 ∧ (0 : ℚ) ≤ 0 :=
  ⟨(C8_progress_monotone [] 0 0).2.2.2 (by simp),
   (C8_progress_monotone [] 0 0).2.1 0 (by decide)⟩

/-! ## Claims about the transcode runner -/

/-- C1 counterexample: when ffmpeg exits with code 1 leaving a temp file
of size 5 and stderr "x", the runner returns failure and attaches the
stderr — but it does **not** remove the partial temp file (the temp file
is only removed later by the job-level cleanup handler), refuting the
claim that in every non-success case the runner removes any partial temp
file. -/
theorem C1_counterexample :
    ¬ ((let r := process_file_with_ffmpeg
          { available := true, returncode := 1, temp_after_run := some 5,
            stderr_out := "x", progress_lines := [] }
          { temp := none, final := none } (pystr "/o.mkv") "1536k" [] 0 false
        (r.success = true ↔
          (1 : Int) = 0 ∧ (some 5 : FsFile) ≠ none ∧ 0 < 5) ∧
        (r.success = false →
          r.fs.temp = none ∧ LogEntry.ffmpegStderr "x" ∈ r.logs))) := by
  intro h
  have h2 := (h.2 (by decide)).1
  exact absurd h2 (by decide)

/-- C1 amended: the final path receives a file exactly when the tool is
available, exits 0, and left a temp file with size > 0 — in that case
the temp file is renamed onto the final path and the runner returns
success.  When the tool exits 0 with a missing/empty temp file, the
runner removes the empty temp file and returns failure (with a warning,
not the tool's stderr).  When the tool exits non-zero, the runner
returns failure with the captured stderr attached (when non-empty) but
leaves the temp file exactly as the tool left it, deferring its removal
to the job-level cleanup. -/
theorem C1_runner_commit (env : FfmpegEnv) (fs : FsState) (out : PyStr)
    (b : String) (ops : List AudioOp) (d : ℚ) (lc : Bool) :
    (let r := process_file_with_ffmpeg env fs out b ops d lc
     (r.success = true ↔
        env.available = true ∧ env.returncode = 0 ∧
          ∃ n, env.temp_after_run = some n ∧ 0 < n) ∧
     (r.success = true →
        r.fs.temp = none ∧ r.fs.final = env.temp_after_run) ∧
     (r.success = false → r.fs.final = fs.final) ∧
     (env.available = true → env.returncode = 0 → r.fs.temp = none) ∧
     (env.available = true → env.returncode ≠ 0 →
        r.success = false ∧ r.fs.temp = env.temp_after_run ∧
        LogEntry.errFfmpegRC env.returncode ∈ r.logs ∧
        (env.stderr_out ≠ "" →
          LogEntry.ffmpegStderr env.stderr_out ∈ r.logs)) ∧
     (env.available = false →
        r.success = false ∧ r.fs = fs ∧ r.logs = [.errNoFfmpeg])) := by
  obtain ⟨av, rc, tmp, serr, pl⟩ := env
  cases av with
  | false => simp [process_file_with_ffmpeg]
  | true =>
    by_cases hrc : rc = 0
    · subst hrc
      cases tmp with
      | none => simp [process_file_with_ffmpeg]
      | some n =>
        by_cases hn : 0 < n
        · simp [process_file_with_ffmpeg, hn]
        · simp [process_file_with_ffmpeg, hn]
    · by_cases hs : serr = ""
      · subst hs
        simp [process_file_with_ffmpeg, hrc]
      · simp [process_file_with_ffmpeg, hrc, hs]

/-- C1 witness: a clean run (exit 0, temp of size 7) commits the temp
content to the final path. -/
theorem C1_runner_commit_witness :
    (process_file_with_ffmpeg
        { available := true, returncode := 0, temp_after_run := some 7,
          stderr_out := "", progress_lines := [] }
        { temp := none, final := none } (pystr "/o.mkv") "1536k" [] 0
        false).fs.final = some 7 ∧
    (process_file_with_ffmpeg
        { available := true, returncode := 0, temp_after_run := some 7,
          stderr_out := "", progress_lines := [] }
        { temp := none, final := none } (pystr "/o.mkv") "1536k" [] 0
        false).fs.temp = none := by
  have h := C1_runner_commit
    { available := true, returncode := 0, temp_after_run := some 7,
      stderr_out := "", progress_lines := [] }
    { temp := none, final := none } (pystr "/o.mkv") "1536k" [] 0 false
  have hsucc := h.1.mpr ⟨rfl, rfl, ⟨7, rfl, by decide⟩⟩
  exact ⟨(h.2.1 hsucc).2, (h.2.1 hsucc).1⟩

/-! ## Claims about the media probe -/

/-- C7 counterexample: with ffprobe missing, the duration probe returns
0 but emits **no** diagnostic message at all, refuting the claim that
every failing probe result comes with a diagnostic message. -/
theorem C7_counterexample :
    ¬ ((get_video_duration { ffprobe_available := false, parsed := none }
          false).1 = 0 ∧
       (get_video_duration { ffprobe_available := false, parsed := none }
          false).2 ≠ []) := by
  intro h
  exact absurd rfl h.2

/-- C7 amended: the probes never raise: a missing tool, a failing run or
malformed output degrade the duration probe to 0 and the stream probe to
the empty list; the stream probe emits a diagnostic message in the
missing-tool, malformed-JSON and malformed-stream-entry cases but
returns silently on a non-zero exit or empty output, and the duration
probe emits no diagnostic; the file still proceeds through planning with
the degraded information, ending as a normal `skipped_no_ops` outcome
with no tool invocation. -/
theorem C7_probe_degrades (denv : DurationEnv) (lc : Bool) (args : Args)
    (env : JobEnv) :
    (denv.ffprobe_available = false → get_video_duration denv lc = (0, [])) ∧
    (denv.parsed = none → (get_video_duration denv lc).1 = 0) ∧
    (get_stream_info .noTool lc = ([], [.warnNoFfprobe])) ∧
    (get_stream_info .exitNonzero lc =
      ([], if lc then [.cmdLog stream_info_command] else [])) ∧
    (get_stream_info .emptyOutput lc =
      ([], if lc then [.cmdLog stream_info_command] else [])) ∧
    (get_stream_info .jsonError lc =
      ([], (if lc then [.cmdLog stream_info_command] else []) ++
        [.warnJsonDecode])) ∧
    (get_stream_info .otherError lc =
      ([], (if lc then [.cmdLog stream_info_command] else []) ++
        [.errStreamInfo])) ∧
    (env.stream_probe = .exitNonzero →
      (process_single_file args env).outcome = some "skipped_no_ops" ∧
      (process_single_file args env).tool_invoked = false) := by
  refine ⟨?_, ?_, rfl, rfl, rfl, rfl, rfl, ?_⟩
  · intro h
    simp [get_video_duration, h]
  · intro h
    unfold get_video_duration
    split
    · rfl
    · rw [h]
  · intro h
    simp [process_single_file, h, get_stream_info, plan_ops, primary_ops,
      downmix_ops]

/-- C7 witness: a missing-ffprobe duration probe degrades to `(0, [])`,
and a job whose stream probe exits non-zero proceeds to the
`skipped_no_ops` outcome. -/
theorem C7_probe_degrades_witness :
    get_video_duration { ffprobe_available := false, parsed := none }
        false = (0, []) ∧
    (process_single_file
        { languages := "eng", log_commands := false, downmix := false,
          output_directory_base := none, force_reprocess := false,
          dry_run := false, audio_bitrate := "1536k" }
        { filepath := pystr "/a/b.mkv", input_path_abs := pystr "/a",
          input_is_dir := true, cwd := pystr "/",
          stream_probe := .exitNonzero,
          duration_probe := { ffprobe_available := true, parsed := none },
          final_before := none, temp_before := none,
          output_dir_is_dir := true, makedirs_ok := true, remove_ok := true,
          ffmpeg := .runs ({ available := true, returncode := 0,
                             temp_after_run := none, stderr_out := "",
                             progress_lines := [] }) }).outcome = some "skipped_no_ops" := by
  have h := C7_probe_degrades { ffprobe_available := false, parsed := none }
    false
    { languages := "eng", log_commands := false, downmix := false,
      output_directory_base := none, force_reprocess := false,
      dry_run := false, audio_bitrate := "1536k" }
    { filepath := pystr "/a/b.mkv", input_path_abs := pystr "/a",
      input_is_dir := true, cwd := pystr "/",
      stream_probe := .exitNonzero,
      duration_probe := { ffprobe_available := true, parsed := none },
      final_before := none, temp_before := none,
      output_dir_is_dir := true, makedirs_ok := true, remove_ok := true,
      ffmpeg := .runs ({ available := true, returncode := 0,
                         temp_after_run := none, stderr_out := "",
                         progress_lines := [] }) }
  exact ⟨h.1 rfl, (h.2.2.2.2.2.2.2 rfl).1⟩

/-! ## Claims about the per-file job -/

/-- The execute phase always clears the temp path when the cleanup
`os.remove` succeeds, whether the runner returned or raised. -/
theorem job_execute_temp_after (args : Args) (env : JobEnv) (out : PyStr)
    (d : ℚ) (ops : List AudioOp) (logs : List LogEntry)
    (hrm : env.remove_ok = true) :
    (job_execute args env out d ops logs).temp_after = none := by
  unfold job_execute
  cases env.ffmpeg with
  | runs fenv =>
    dsimp only
    rw [hrm]
    cases (process_file_with_ffmpeg fenv
        { temp := env.temp_before, final := env.final_before } out
        args.audio_bitrate ops d args.log_commands).fs.temp with
    | none => rfl
    | some n => rfl
  | raises t =>
    dsimp only
    rw [hrm]
    cases t with
    | none => rfl
    | some n => rfl

/-- Whenever the execute phase returns a status normally, it is
`processed` or `failed`. -/
theorem job_execute_outcome_keys (args : Args) (env : JobEnv) (out : PyStr)
    (d : ℚ) (ops : List AudioOp) (logs : List LogEntry) :
    ∀ s, (job_execute args env out d ops logs).outcome = some s →
      s ∈ STAT_KEYS := by
  unfold job_execute
  cases env.ffmpeg with
  | runs fenv =>
    dsimp only
    intro s hs
    rw [Option.some_inj] at hs
    subst hs
    cases (process_file_with_ffmpeg fenv
        { temp := env.temp_before, final := env.final_before } out
        args.audio_bitrate ops d args.log_commands).success with
    | true => decide
    | false => decide
  | raises t =>
    dsimp only
    intro s hs
    cases hs

/-- C2: on every exit path of a per-file job — all skip ladders, the
directory-creation failure, a returning tool run, and an exception
raised inside the tool step — the job's temp file is removed (given a
succeeding cleanup `os.remove` and no stale temp on entry) before the
job reports its outcome, and every normally returned outcome is one of
the six terminal status strings. -/
theorem C2_temp_cleanup (args : Args) (env : JobEnv)
    (hrm : env.remove_ok = true) (h0 : env.temp_before = none) :
    (process_single_file args env).temp_after = none ∧
    (∀ s, (process_single_file args env).outcome = some s → s ∈ STAT_KEYS) := by
  constructor
  · unfold process_single_file
    dsimp only
    split
    · exact h0
    · split
      · exact h0
      · split
        · exact h0
        · split
          · exact h0
          · split
            · exact h0
            · split
              · exact h0
              · exact job_execute_temp_after args env _ _ _ _ hrm
  · unfold process_single_file
    dsimp only
    intro s hs
    split at hs
    · rw [Option.some_inj] at hs
      subst hs
      decide
    · split at hs
      · rw [Option.some_inj] at hs
        subst hs
        decide
      · split at hs
        · rw [Option.some_inj] at hs
          subst hs
          decide
        · split at hs
          · rw [Option.some_inj] at hs
            subst hs
            decide
          · split at hs
            · rw [Option.some_inj] at hs
              subst hs
              decide
            · split at hs
              · rw [Option.some_inj] at hs
                subst hs
                decide
              · exact job_execute_outcome_keys args env _ _ _ _ s hs

/-- C2 witness: a job whose tool run raises still ends with the temp
path clear. -/
theorem C2_temp_cleanup_witness :
    (process_single_file
        { languages := "eng", log_commands := false, downmix := false,
          output_directory_base := none, force_reprocess := false,
          dry_run := false, audio_bitrate := "1536k" }
        { filepath := pystr "/a/b.mkv", input_path_abs := pystr "/a",
          input_is_dir := true, cwd := pystr "/",
          stream_probe := .ok
            [{ index := some 1, codec_name := some "aac",
               channels := some 6, tags_language := some "eng" }],
          duration_probe := { ffprobe_available := true, parsed := none },
          final_before := none, temp_before := none,
          output_dir_is_dir := true, makedirs_ok := true, remove_ok := true,
          ffmpeg := .raises (some 3) }).temp_after = none :=
  (C2_temp_cleanup
    { languages := "eng", log_commands := false, downmix := false,
      output_directory_base := none, force_reprocess := false,
      dry_run := false, audio_bitrate := "1536k" }
    { filepath := pystr "/a/b.mkv", input_path_abs := pystr "/a",
      input_is_dir := true, cwd := pystr "/",
      stream_probe := .ok
        [{ index := some 1, codec_name := some "aac",
           channels := some 6, tags_language := some "eng" }],
      duration_probe := { ffprobe_available := true, parsed := none },
      final_before := none, temp_before := none,
      output_dir_is_dir := true, makedirs_ok := true, remove_ok := true,
      ffmpeg := .raises (some 3) } rfl rfl).1

/-- C9: when dry-run is enabled, the plan needs processing, and no skip
condition fires (output absent or force-reprocess, non-identical paths),
the job reports `processed` without invoking the tool, without creating
directories, and without touching the temp or final paths. -/
theorem C9_dry_run (args : Args) (env : JobEnv)
    (hdry : args.dry_run = true)
    (hne : (plan_ops args.downmix (parse_target_languages args.languages)
      (get_stream_info env.stream_probe args.log_commands).1).isEmpty = false)
    (hneeds : ((plan_ops args.downmix (parse_target_languages args.languages)
      (get_stream_info env.stream_probe args.log_commands).1).any fun op =>
        op.op = .transcode ∨ op.op = .downmix) = true)
    (hex : ¬ (env.final_before.isSome ∧ ¬ args.force_reprocess))
    (hid : ¬ (abspath env.cwd env.filepath =
      abspath env.cwd (resolve_output_filepath args env))) :
    (process_single_file args env).outcome = some "processed" ∧
    (process_single_file args env).tool_invoked = false ∧
    (process_single_file args env).made_dir = false ∧
    (process_single_file args env).temp_after = env.temp_before ∧
    (process_single_file args env).final_after = env.final_before := by
  unfold process_single_file
  simp only [hne, hneeds, hdry, if_neg hex, if_neg hid]
  simp

/-- C9 witness: a concrete dry run over one 6-channel aac eng stream
reports `processed` with no tool invocation and no filesystem effects. -/
theorem C9_dry_run_witness :
    (process_single_file
        { languages := "eng", log_commands := false, downmix := false,
          output_directory_base := none, force_reprocess := false,
          dry_run := true, audio_bitrate := "1536k" }
        { filepath := pystr "/a/b.mkv", input_path_abs := pystr "/a",
          input_is_dir := true, cwd := pystr "/",
          stream_probe := .ok
            [{ index := some 1, codec_name := some "aac",
               channels := some 6, tags_language := some "eng" }],
          duration_probe := { ffprobe_available := true, parsed := none },
          final_before := none, temp_before := none,
          output_dir_is_dir := true, makedirs_ok := true, remove_ok := true,
          ffmpeg := .runs ({ available := true, returncode := 0,
                             temp_after_run := none, stderr_out := "",
                             progress_lines := [] }) }).outcome =
      some "processed" ∧
    (process_single_file
        { languages := "eng", log_commands := false, downmix := false,
          output_directory_base := none, force_reprocess := false,
          dry_run := true, audio_bitrate := "1536k" }
        { filepath := pystr "/a/b.mkv", input_path_abs := pystr "/a",
          input_is_dir := true, cwd := pystr "/",
          stream_probe := .ok
            [{ index := some 1, codec_name := some "aac",
               channels := some 6, tags_language := some "eng" }],
          duration_probe := { ffprobe_available := true, parsed := none },
          final_before := none, temp_before := none,
          output_dir_is_dir := true, makedirs_ok := true, remove_ok := true,
          ffmpeg := .runs ({ available := true, returncode := 0,
                             temp_after_run := none, stderr_out := "",
                             progress_lines := [] }) }).tool_invoked =
      false := by
  have h := C9_dry_run
    { languages := "eng", log_commands := false, downmix := false,
      output_directory_base := none, force_reprocess := false,
      dry_run := true, audio_bitrate := "1536k" }
    { filepath := pystr "/a/b.mkv", input_path_abs := pystr "/a",
      input_is_dir := true, cwd := pystr "/",
      stream_probe := .ok
        [{ index := some 1, codec_name := some "aac",
           channels := some 6, tags_language := some "eng" }],
      duration_probe := { ffprobe_available := true, parsed := none },
      final_before := none, temp_before := none,
      output_dir_is_dir := true, makedirs_ok := true, remove_ok := true,
      ffmpeg := .runs ({ available := true, returncode := 0,
                         temp_after_run := none, stderr_out := "",
                         progress_lines := [] }) }
    rfl (by decide) (by decide) (by decide) (by decide)
  exact ⟨h.1, h.2.1⟩

/-! ## Path lemmas for output-path resolution (claim C10) -/

/-- A path component as they occur in well-formed absolute paths:
nonempty, slash-free, and not a relative marker. -/
def GoodComp (c : PyStr) : Prop :=
  c ≠ [] ∧ '/' ∉ c ∧ c ≠ ['.'] ∧ c ≠ ['.', '.']

instance (c : PyStr) : Decidable (GoodComp c) := by
  unfold GoodComp
  infer_instance

/-- An absolute normalized path built from its components. -/
def mkAbs (comps : List PyStr) : PyStr :=
  '/' :: List.intercalate ['/'] comps

theorem splitLast_eq_none (c : Char) (p : PyStr) (h : c ∉ p) :
    splitLast c p = none := by
  induction p with
  | nil => rfl
  | cons x xs ih =>
    rw [List.mem_cons, not_or] at h
    rw [splitLast, ih h.2]
    exact if_neg fun hh => h.1 hh.symm

theorem splitLast_append (c : Char) (b a : PyStr) (h : c ∉ a) :
    splitLast c (b ++ c :: a) = some (b, a) := by
  induction b with
  | nil =>
    rw [List.nil_append, splitLast, splitLast_eq_none c a h, if_pos rfl]
  | cons x xs ih =>
    rw [List.cons_append, splitLast, ih]

theorem intercalate_nil_pystr (sep : PyStr) :
    List.intercalate sep ([] : List PyStr) = [] := rfl

theorem intercalate_singleton_pystr (sep : PyStr) (a : PyStr) :
    List.intercalate sep [a] = a := by
  simp [List.intercalate]

theorem intercalate_cons_pystr (sep a : PyStr) (l : List PyStr) (h : l ≠ []) :
    List.intercalate sep (a :: l) = a ++ sep ++ List.intercalate sep l := by
  cases l with
  | nil => exact absurd rfl h
  | cons b t => simp [List.intercalate, List.intersperse]

theorem intercalate_append_pystr (sep : PyStr) (x y : List PyStr)
    (hx : x ≠ []) (hy : y ≠ []) :
    List.intercalate sep (x ++ y) =
      List.intercalate sep x ++ sep ++ List.intercalate sep y := by
  induction x with
  | nil => exact absurd rfl hx
  | cons a t ih =>
    cases t with
    | nil =>
      cases y with
      | nil => exact absurd rfl hy
      | cons b u =>
        rw [List.singleton_append, intercalate_cons_pystr sep a (b :: u) (by simp),
          intercalate_singleton_pystr]
    | cons a2 t2 =>
      rw [List.cons_append,
        intercalate_cons_pystr sep a ((a2 :: t2) ++ y) (by simp),
        intercalate_cons_pystr sep a (a2 :: t2) (by simp),
        ih (by simp)]
      simp [List.append_assoc]

theorem mkAbs_append_last (cs : List PyStr) (f : PyStr) (hcs : cs ≠ []) :
    mkAbs (cs ++ [f]) = mkAbs cs ++ '/' :: f := by
  unfold mkAbs
  rw [intercalate_append_pystr ['/'] cs [f] hcs (by simp),
    intercalate_singleton_pystr]
  simp

theorem basename_mkAbs (cs : List PyStr) (f : PyStr) (hf : '/' ∉ f) :
    basename (mkAbs (cs ++ [f])) = f := by
  cases hcs : cs with
  | nil =>
    have : mkAbs [f] = [] ++ '/' :: f := by
      simp [mkAbs, intercalate_singleton_pystr]
    rw [List.nil_append, this, basename, splitLast_append '/' [] f hf]
  | cons a t =>
    rw [← hcs, mkAbs_append_last cs f (by rw [hcs]; simp), basename,
      splitLast_append '/' (mkAbs cs) f hf]

theorem rstripSlashes_append_slash (x : PyStr) :
    rstripSlashes (x ++ ['/']) = rstripSlashes x := by
  simp [rstripSlashes, List.dropWhile]

theorem rstripSlashes_last_not_slash (y : PyStr) (d : Char) (h : d ≠ '/') :
    rstripSlashes (y ++ [d]) = y ++ [d] := by
  unfold rstripSlashes
  rw [List.reverse_append]
  simp only [List.reverse_singleton, List.singleton_append, List.dropWhile]
  rw [decide_eq_false h]
  simp

/-- The interleaved form of a good component list ends in a non-slash
character. -/
theorem intercalate_last_not_slash (cs : List PyStr) (hcs : cs ≠ [])
    (hg : ∀ c ∈ cs, GoodComp c) :
    ∃ y d, List.intercalate ['/'] cs = y ++ [d] ∧ d ≠ '/' := by
  induction cs with
  | nil => exact absurd rfl hcs
  | cons a t ih =>
    cases ht : t with
    | nil =>
      subst ht
      rw [intercalate_singleton_pystr]
      have hga := hg a (by simp)
      rcases List.eq_nil_or_concat a with hnil | ⟨y, d, hyd⟩
      · exact absurd hnil hga.1
      · refine ⟨y, d, by rw [hyd, List.concat_eq_append], fun hd => hga.2.1 ?_⟩
        rw [hyd, hd]
        simp
    | cons b u =>
      rw [← ht]
      have ht' : t ≠ [] := by rw [ht]; simp
      obtain ⟨y, d, hyd, hd⟩ := ih ht' (fun c hc => hg c (by simp [hc]))
      rw [intercalate_cons_pystr ['/'] a t ht', hyd]
      exact ⟨a ++ ['/'] ++ y, d, by simp, hd⟩

theorem dirname_mkAbs (cs : List PyStr) (f : PyStr)
    (hg : ∀ c ∈ cs, GoodComp c) (hf : '/' ∉ f) :
    dirname (mkAbs (cs ++ [f])) = mkAbs cs := by
  cases hcs : cs with
  | nil =>
    have : mkAbs [f] = [] ++ '/' :: f := by
      simp [mkAbs, intercalate_singleton_pystr]
    rw [List.nil_append, this, dirname, splitLast_append '/' [] f hf]
    simp [mkAbs]
    rfl
  | cons a t =>
    rw [← hcs, mkAbs_append_last cs f (by rw [hcs]; simp), dirname,
      splitLast_append '/' (mkAbs cs) f hf]
    dsimp only
    obtain ⟨y, d, hyd, hd⟩ :=
      intercalate_last_not_slash cs (by rw [hcs]; simp) hg
    have hnotall : ¬ ((mkAbs cs ++ ['/']).all fun ch => ch = '/') = true := by
      intro hall
      rw [List.all_eq_true] at hall
      have hdmem : d ∈ mkAbs cs ++ ['/'] := by
        rw [mkAbs, hyd]
        simp
      exact hd (by simpa using hall d hdmem)
    rw [if_neg hnotall, rstripSlashes_append_slash]
    have : mkAbs cs = ('/' :: y) ++ [d] := by
      rw [mkAbs, hyd]
      simp
    rw [this, rstripSlashes_last_not_slash ('/' :: y) d hd]

theorem splitext_name_ext (nm ex : PyStr) (hnm : '/' ∉ nm)
    (hany : nm.any (fun ch => ch ≠ '.') = true)
    (hex1 : '/' ∉ ex) (hex2 : '.' ∉ ex) :
    splitext (nm ++ '.' :: ex) = (nm, '.' :: ex) := by
  have hsep : rfind '/' (nm ++ '.' :: ex) = -1 := by
    rw [rfind, splitLast_eq_none]
    intro hmem
    rw [List.mem_append, List.mem_cons] at hmem
    rcases hmem with h | h | h
    · exact hnm h
    · exact absurd h (by decide)
    · exact hex1 h
  have hdot : rfind '.' (nm ++ '.' :: ex) = nm.length := by
    rw [rfind, splitLast_append '.' nm ex hex2]
  unfold splitext
  rw [hsep, hdot]
  dsimp only
  rw [if_pos (by omega : (-1 : Int) < (nm.length : Int))]
  have h1 : ((nm.length : Int)).toNat = nm.length := by omega
  have h2 : ((-1 : Int) + 1).toNat = 0 := by decide
  rw [h1, h2, List.drop_zero, List.take_left, if_pos hany, List.drop_left]

theorem splitOnChar_ne_nil (c : Char) (p : PyStr) : splitOnChar c p ≠ [] := by
  cases p with
  | nil => simp [splitOnChar]
  | cons x xs =>
    rw [splitOnChar]
    cases h : splitOnChar c xs with
    | nil => simp
    | cons r rs =>
      by_cases hx : x = c
      · simp [hx]
      · simp [hx]

theorem splitOnChar_cons_self (c : Char) (xs : PyStr) :
    splitOnChar c (c :: xs) = [] :: splitOnChar c xs := by
  rw [splitOnChar]
  cases h : splitOnChar c xs with
  | nil => exact absurd h (splitOnChar_ne_nil c xs)
  | cons r rs => simp

theorem splitOnChar_not_mem (c : Char) (a : PyStr) (h : c ∉ a) :
    splitOnChar c a = [a] := by
  induction a with
  | nil => rfl
  | cons x xs ih =>
    rw [List.mem_cons, not_or] at h
    have hx : ¬ x = c := fun hx => h.1 hx.symm
    rw [splitOnChar, ih h.2]
    simp [hx]

theorem splitOnChar_append_sep (c : Char) (a rest : PyStr) (h : c ∉ a) :
    splitOnChar c (a ++ c :: rest) = a :: splitOnChar c rest := by
  induction a with
  | nil =>
    rw [List.nil_append, splitOnChar_cons_self]
  | cons x xs ih =>
    rw [List.mem_cons, not_or] at h
    rw [List.cons_append, splitOnChar, ih h.2]
    have hx : ¬ x = c := fun hx => h.1 hx.symm
    cases hr : splitOnChar c rest with
    | nil => exact absurd hr (splitOnChar_ne_nil c rest)
    | cons r rs => simp [hx]

theorem splitOnChar_intercalate (cs : List PyStr) (hcs : cs ≠ [])
    (hg : ∀ c ∈ cs, '/' ∉ c) :
    splitOnChar '/' (List.intercalate ['/'] cs) = cs := by
  induction cs with
  | nil => exact absurd rfl hcs
  | cons a t ih =>
    cases ht : t with
    | nil =>
      rw [intercalate_singleton_pystr, splitOnChar_not_mem '/' a (hg a (by simp))]
    | cons b u =>
      rw [← ht]
      have ht' : t ≠ [] := by rw [ht]; simp
      rw [intercalate_cons_pystr ['/'] a t ht', List.append_assoc,
        List.singleton_append, splitOnChar_append_sep '/' a _ (hg a (by simp)),
        ih ht' (fun x hx => hg x (by simp [hx]))]

theorem foldl_normStep_good (cs : List PyStr) (acc : List PyStr)
    (hg : ∀ c ∈ cs, GoodComp c) :
    List.foldl (normStep 1) acc cs = acc ++ cs := by
  induction cs generalizing acc with
  | nil => simp
  | cons c t ih =>
    have hc := hg c (by simp)
    have hstep : normStep 1 acc c = acc ++ [c] := by
      unfold normStep
      rw [if_neg (by simp [hc.1, hc.2.2.1]), if_pos (Or.inl hc.2.2.2)]
    rw [List.foldl_cons, hstep, ih (acc ++ [c]) (fun x hx => hg x (by simp [hx]))]
    simp

theorem normpath_mkAbs (cs : List PyStr) (hg : ∀ c ∈ cs, GoodComp c) :
    normpath (mkAbs cs) = mkAbs cs := by
  cases hcs : cs with
  | nil => decide
  | cons a t =>
    rw [← hcs]
    have hcs' : cs ≠ [] := by rw [hcs]; simp
    have ha := hg a (by rw [hcs]; simp)
    obtain ⟨d, y, hdy⟩ : ∃ d y, a = d :: y := by
      cases a with
      | nil => exact absurd rfl ha.1
      | cons d y => exact ⟨d, y, rfl⟩
    have hd : d ≠ '/' := fun hh => ha.2.1 (by rw [hdy, hh]; simp)
    obtain ⟨w, hw⟩ : ∃ w, List.intercalate ['/'] cs = d :: w := by
      rw [hcs]
      cases ht : t with
      | nil =>
        rw [intercalate_singleton_pystr, hdy]
        exact ⟨y, rfl⟩
      | cons b u =>
        rw [← ht, intercalate_cons_pystr ['/'] a t (by rw [ht]; simp), hdy]
        exact ⟨y ++ ['/'] ++ List.intercalate ['/'] t, by simp⟩
    have hp1 : (mkAbs cs).take 1 = ['/'] := by
      rw [mkAbs]
      simp
    have hp2 : (mkAbs cs).take 2 ≠ ['/', '/'] := by
      rw [mkAbs, hw]
      intro hh
      simp at hh
      exact hd hh
    have hIS : ¬ ((mkAbs cs).take 2 = ['/', '/'] ∧
        (mkAbs cs).take 3 ≠ ['/', '/', '/']) := fun hh => hp2 hh.1
    unfold normpath
    rw [if_neg (by simp [mkAbs])]
    dsimp only
    rw [if_pos hp1, if_neg hIS]
    have hsplit : splitOnChar '/' (mkAbs cs) = [] :: cs := by
      rw [mkAbs, splitOnChar_cons_self,
        splitOnChar_intercalate cs hcs' (fun c hc => (hg c hc).2.1)]
    rw [hsplit, List.foldl_cons]
    have hfirst : normStep 1 [] [] = [] := by
      unfold normStep
      rw [if_pos (Or.inl rfl)]
    rw [hfirst, foldl_normStep_good cs [] hg, List.nil_append]
    have hres : List.replicate 1 '/' ++ List.intercalate ['/'] cs = mkAbs cs := by
      rw [mkAbs]
      simp
    rw [hres, if_neg (by simp [mkAbs])]

theorem abspath_mkAbs (cwd : PyStr) (cs : List PyStr)
    (hg : ∀ c ∈ cs, GoodComp c) :
    abspath cwd (mkAbs cs) = mkAbs cs := by
  rw [abspath, if_pos (by rw [mkAbs]; simp), normpath_mkAbs cs hg]

theorem commonPrefixLen_self_append (l m : List PyStr) :
    commonPrefixLen l (l ++ m) = l.length := by
  induction l with
  | nil => rfl
  | cons a t ih =>
    rw [List.cons_append, commonPrefixLen, if_pos rfl, ih]
    simp

/-- The nonempty components of the absolute form of `mkAbs cs` are `cs`
itself. -/
theorem absComps_mkAbs (cwd : PyStr) (cs : List PyStr)
    (hg : ∀ c ∈ cs, GoodComp c) :
    (splitOnChar '/' (abspath cwd (mkAbs cs))).filter (fun x => x ≠ []) = cs := by
  rw [abspath_mkAbs cwd cs hg]
  cases hcs : cs with
  | nil => decide
  | cons a t =>
    rw [← hcs]
    have hsplit : splitOnChar '/' (mkAbs cs) = [] :: cs := by
      rw [mkAbs, splitOnChar_cons_self,
        splitOnChar_intercalate cs (by rw [hcs]; simp)
          (fun c hc => (hg c hc).2.1)]
    rw [hsplit, List.filter_cons]
    simp only [decide_not]
    rw [if_neg (by simp)]
    rw [List.filter_eq_self.mpr]
    intro x hx
    simpa using (hg x hx).1

theorem relpath_mkAbs (cwd : PyStr) (ic rc : List PyStr)
    (hic : ∀ c ∈ ic, GoodComp c) (hrc : ∀ c ∈ rc, GoodComp c) :
    relpath cwd (mkAbs (ic ++ rc)) (mkAbs ic) =
      (if rc = [] then ['.'] else List.intercalate ['/'] rc) := by
  have hall : ∀ c ∈ ic ++ rc, GoodComp c := by
    intro c hc
    rw [List.mem_append] at hc
    rcases hc with h | h
    · exact hic c h
    · exact hrc c h
  unfold relpath
  rw [absComps_mkAbs cwd ic hic, absComps_mkAbs cwd (ic ++ rc) hall]
  dsimp only
  rw [commonPrefixLen_self_append ic rc]
  simp only [Nat.sub_self, List.replicate_zero, List.nil_append,
    List.drop_left]

theorem intercalate_ne_dot (rc : List PyStr) (hrc : rc ≠ [])
    (hg : ∀ c ∈ rc, GoodComp c) :
    List.intercalate ['/'] rc ≠ ['.'] := by
  cases rc with
  | nil => exact absurd rfl hrc
  | cons a t =>
    cases ht : t with
    | nil =>
      rw [intercalate_singleton_pystr]
      exact (hg a (by simp)).2.2.1
    | cons b u =>
      rw [← ht]
      have ht' : t ≠ [] := by rw [ht]; simp
      rw [intercalate_cons_pystr ['/'] a t ht']
      intro hh
      have hlen : (a ++ ['/'] ++ List.intercalate ['/'] t).length = 1 := by
        rw [hh]
        rfl
      have ha : a ≠ [] := (hg a (by simp)).1
      have : 1 ≤ a.length := List.length_pos.mpr ha
      simp [List.length_append] at hlen
      omega

theorem pathJoin_mkAbs_rel (bc rc : List PyStr) (hbc : ∀ c ∈ bc, GoodComp c)
    (hrc : ∀ c ∈ rc, GoodComp c) (hrc' : rc ≠ []) :
    pathJoin (mkAbs bc) (List.intercalate ['/'] rc) = mkAbs (bc ++ rc) := by
  obtain ⟨c0, rest, hc0⟩ : ∃ c0 rest, rc = c0 :: rest := by
    cases rc with
    | nil => exact absurd rfl hrc'
    | cons c0 rest => exact ⟨c0, rest, rfl⟩
  have hg0 := hrc c0 (by rw [hc0]; simp)
  obtain ⟨d, y, hdy⟩ : ∃ d y, c0 = d :: y := by
    cases c0 with
    | nil => exact absurd rfl hg0.1
    | cons d y => exact ⟨d, y, rfl⟩
  have hd : d ≠ '/' := fun hh => hg0.2.1 (by rw [hdy, hh]; simp)
  obtain ⟨w, hw⟩ : ∃ w, List.intercalate ['/'] rc = d :: w := by
    rw [hc0]
    cases hrest : rest with
    | nil =>
      rw [intercalate_singleton_pystr, hdy]
      exact ⟨y, rfl⟩
    | cons b u =>
      rw [← hrest, intercalate_cons_pystr ['/'] c0 rest (by rw [hrest]; simp),
        hdy]
      exact ⟨y ++ ['/'] ++ List.intercalate ['/'] rest, by simp⟩
  have habs : ¬ ((List.intercalate ['/'] rc).take 1 = ['/']) := by
    rw [hw]
    intro hh
    simp at hh
    exact hd hh
  unfold pathJoin
  rw [if_neg habs]
  cases hbc' : bc with
  | nil =>
    rw [if_pos (Or.inr (by rw [mkAbs]; decide))]
    rw [mkAbs, mkAbs]
    simp
    rfl
  | cons a t =>
    rw [← hbc']
    have hbcne : bc ≠ [] := by rw [hbc']; simp
    obtain ⟨y2, d2, hyd2, hd2⟩ := intercalate_last_not_slash bc hbcne hbc
    have hlast : (mkAbs bc).getLast? = some d2 := by
      rw [mkAbs, hyd2]
      rw [show ('/' :: (y2 ++ [d2])) = ('/' :: y2) ++ [d2] by simp]
      exact List.getLast?_concat ('/' :: y2)
    rw [if_neg]
    · rw [mkAbs, mkAbs, intercalate_append_pystr ['/'] bc rc hbcne hrc']
      simp
    · rintro (h | h)
      · rw [mkAbs] at h
        cases h
      · rw [hlast] at h
        rw [Option.some_inj] at h
        exact hd2 h

theorem pathJoin_mkAbs_comp (cs : List PyStr) (f : PyStr)
    (hcs : ∀ c ∈ cs, GoodComp c) (hf : GoodComp f) :
    pathJoin (mkAbs cs) f = mkAbs (cs ++ [f]) := by
  have h := pathJoin_mkAbs_rel cs [f] hcs
    (by intro c hc; simp at hc; rw [hc]; exact hf) (by simp)
  rw [intercalate_singleton_pystr] at h
  exact h

/-- C10: the resolved output filename is the input's base name with
`_eac3` inserted before its unchanged extension; the file lands in the
input's own directory when no output base is configured, under the
output base mirroring the input-relative subdirectories when the input
is a directory, and directly under the output base otherwise. -/
theorem C10_output_path (ic rc bc : List PyStr) (nm ex : PyStr)
    (args : Args) (env : JobEnv)
    (hic : ∀ c ∈ ic, GoodComp c) (hrc : ∀ c ∈ rc, GoodComp c)
    (hbc : ∀ c ∈ bc, GoodComp c)
    (hnm : '/' ∉ nm) (hany : nm.any (fun ch => ch ≠ '.') = true)
    (hex1 : '/' ∉ ex) (hex2 : '.' ∉ ex)
    (hfp : env.filepath = mkAbs (ic ++ rc ++ [nm ++ '.' :: ex]))
    (hin : env.input_path_abs = mkAbs ic) :
    (args.output_directory_base = none →
      resolve_output_filepath args env =
        mkAbs (ic ++ rc ++ [nm ++ pystr "_eac3" ++ '.' :: ex])) ∧
    (args.output_directory_base = some (mkAbs bc) → env.input_is_dir = true →
      resolve_output_filepath args env =
        mkAbs (bc ++ rc ++ [nm ++ pystr "_eac3" ++ '.' :: ex])) ∧
    (args.output_directory_base = some (mkAbs bc) → env.input_is_dir = false →
      resolve_output_filepath args env =
        mkAbs (bc ++ [nm ++ pystr "_eac3" ++ '.' :: ex])) := by
  obtain ⟨ch, hchmem, hchne⟩ : ∃ ch ∈ nm, ch ≠ '.' := by
    simpa using hany
  have hfgood : GoodComp (nm ++ '.' :: ex) := by
    refine ⟨by simp, ?_, ?_, ?_⟩
    · intro hmem
      rw [List.mem_append, List.mem_cons] at hmem
      rcases hmem with h | h | h
      · exact hnm h
      · exact absurd h (by decide)
      · exact hex1 h
    · intro h
      have hch : ch ∈ (['.'] : PyStr) := by
        rw [← h]
        exact List.mem_append_left _ hchmem
      simp at hch
      exact hchne hch
    · intro h
      have hch : ch ∈ (['.', '.'] : PyStr) := by
        rw [← h]
        exact List.mem_append_left _ hchmem
      simp at hch
      exact hchne hch
  have hnmne : nm ≠ [] := fun h => by
    rw [h] at hchmem
    cases hchmem
  have hf2good : GoodComp (nm ++ pystr "_eac3" ++ '.' :: ex) := by
    refine ⟨by simp, ?_, ?_, ?_⟩
    · intro hmem
      rw [List.mem_append, List.mem_append, List.mem_cons] at hmem
      rcases hmem with (h | h) | h | h
      · exact hnm h
      · exact absurd h (by decide)
      · exact absurd h (by decide)
      · exact hex1 h
    · intro h
      have hlen := congrArg List.length h
      simp [pystr] at hlen
      omega
    · intro h
      have hlen := congrArg List.length h
      simp [pystr] at hlen
      omega
  have hicrc : ∀ c ∈ ic ++ rc, GoodComp c := by
    intro c hc
    rw [List.mem_append] at hc
    rcases hc with h | h
    · exact hic c h
    · exact hrc c h
  have hbcrc : ∀ c ∈ bc ++ rc, GoodComp c := by
    intro c hc
    rw [List.mem_append] at hc
    rcases hc with h | h
    · exact hbc c h
    · exact hrc c h
  have hbase : basename env.filepath = nm ++ '.' :: ex := by
    rw [hfp, basename_mkAbs (ic ++ rc) _ hfgood.2.1]
  have hdir : dirname env.filepath = mkAbs (ic ++ rc) := by
    rw [hfp, dirname_mkAbs (ic ++ rc) _ hicrc hfgood.2.1]
  have hsp : splitext (basename env.filepath) = (nm, '.' :: ex) := by
    rw [hbase, splitext_name_ext nm ex hnm hany hex1 hex2]
  refine ⟨?_, ?_, ?_⟩
  · intro hb
    unfold resolve_output_filepath
    rw [hsp, hb, hdir]
    dsimp only
    rw [pathJoin_mkAbs_comp (ic ++ rc) _ hicrc hf2good]
  · intro hb hdirflag
    unfold resolve_output_filepath
    rw [hsp, hb, hdirflag, hdir, hin]
    dsimp only
    rw [if_pos rfl, relpath_mkAbs env.cwd ic rc hic hrc]
    cases hrceq : rc with
    | nil =>
      rw [if_pos rfl, if_neg (by simp)]
      rw [pathJoin_mkAbs_comp bc _ hbc hf2good]
      simp
    | cons b u =>
      rw [← hrceq]
      have hrcne : rc ≠ [] := by rw [hrceq]; simp
      rw [if_neg hrcne, if_pos (intercalate_ne_dot rc hrcne hrc),
        pathJoin_mkAbs_rel bc rc hbc hrc hrcne,
        pathJoin_mkAbs_comp (bc ++ rc) _ hbcrc hf2good]
  · intro hb hdirflag
    unfold resolve_output_filepath
    rw [hsp, hb, hdirflag]
    dsimp only
    rw [if_neg Bool.false_ne_true, pathJoin_mkAbs_comp bc _ hbc hf2good]

/-- C10 witness: `/a/sub/b.mkv` under input root `/a` with output base
`/out` resolves to `/out/sub/b_eac3.mkv`. -/
theorem C10_output_path_witness :
    resolve_output_filepath
      { languages := "eng", log_commands := false, downmix := false,
        output_directory_base := some (mkAbs [pystr "out"]),
        force_reprocess := false, dry_run := false,
        audio_bitrate := "1536k" }
      { filepath := mkAbs ([pystr "a"] ++ [pystr "sub"] ++
          [pystr "b" ++ '.' :: pystr "mkv"]),
        input_path_abs := mkAbs [pystr "a"], input_is_dir := true,
        cwd := pystr "/", stream_probe := .exitNonzero,
        duration_probe := { ffprobe_available := true, parsed := none },
        final_before := none, temp_before := none,
        output_dir_is_dir := true, makedirs_ok := true, remove_ok := true,
        ffmpeg := .raises none } =
      mkAbs ([pystr "out"] ++ [pystr "sub"] ++
        [pystr "b" ++ pystr "_eac3" ++ '.' :: pystr "mkv"]) :=
  (C10_output_path [pystr "a"] [pystr "sub"] [pystr "out"]
    (pystr "b") (pystr "mkv")
    { languages := "eng", log_commands := false, downmix := false,
      output_directory_base := some (mkAbs [pystr "out"]),
      force_reprocess := false, dry_run := false,
      audio_bitrate := "1536k" }
    { filepath := mkAbs ([pystr "a"] ++ [pystr "sub"] ++
        [pystr "b" ++ '.' :: pystr "mkv"]),
      input_path_abs := mkAbs [pystr "a"], input_is_dir := true,
      cwd := pystr "/", stream_probe := .exitNonzero,
      duration_probe := { ffprobe_available := true, parsed := none },
      final_before := none, temp_before := none,
      output_dir_is_dir := true, makedirs_ok := true, remove_ok := true,
      ffmpeg := .raises none }
    (by decide) (by decide) (by decide) (by decide) (by decide) (by decide)
    (by decide) rfl rfl).2.1 rfl rfl
